import Mathlib

/-!
Verification of the lesson-progress / sequential-access-control engine of the
LMS repository (`app/api/course_routes.py`) against its specification.

The embedding models one enrollment of one user in one course.  The state
carries the course's lessons in the order the endpoints query them
(ascending `Lesson.order`), the enrollment row (or `none` when the user is
not enrolled), the enrollment's `LessonProgress` rows and its `QuizAttempt`
rows, both in database (insertion) order.

The repository configures SQLAlchemy with `autoflush=False`, so every query
issued inside an endpoint sees only the rows committed before the request;
writes made earlier in the same request body are invisible to later queries
and take effect at the final `db.commit()`.  The operation definitions below
therefore run all their count/lookup queries against the pre-request state
and produce the post-commit state separately.

Python floats are modelled as rationals, timestamps as naturals.
-/

namespace LMS

/-- One authored quiz question, as stored in the `quiz_questions` JSON column:
`{"id": ..., "correct_answer": ..., "points": ...}` where `correct_answer`
and `points` may be absent (`question.get` returns `None` / the default). -/
structure Question where
  id : Nat
  correct_answer : Option Int
  points : Option Int
  deriving Repr, DecidableEq

/-- A row of the `lessons` table (the columns the progress engine reads). -/
structure Lesson where
  id : Nat
  title : String
  content_type : String
  order : Int
  quiz_questions : List Question
  quiz_passing_score : Int
  deriving Repr, DecidableEq

/-- A row of the `lesson_progress` table for the modelled enrollment. -/
structure LessonProgress where
  lesson_id : Nat
  is_completed : Bool
  completed_at : Option Nat
  deriving Repr, DecidableEq

/-- A row of the `quiz_attempts` table for the modelled enrollment. -/
structure QuizAttempt where
  lesson_id : Nat
  score : ℚ
  points_earned : Int
  points_possible : Int
  passed : Bool
  submitted_at : Nat
  deriving Repr, DecidableEq

/-- The mutable columns of the `enrollments` row owned by the engine. -/
structure Enrollment where
  progress_percentage : ℚ
  status : String
  completed_at : Option Nat
  last_accessed_at : Option Nat
  deriving Repr, DecidableEq

/-- Committed database state relevant to one (user, course) pair:
`lessons` is the course's lesson list ordered ascending by `order` (the
order every endpoint queries them in); `enrollment` is `none` when the user
is not enrolled; `progress` and `attempts` are the enrollment's rows in
insertion order. -/
structure EngineState where
  lessons : List Lesson
  enrollment : Option Enrollment
  progress : List LessonProgress
  attempts : List QuizAttempt
  deriving Repr, DecidableEq

/-- Errors raised by the endpoints via `HTTPException`; raising aborts the
request before `db.commit()`, so an error leaves the state unchanged. -/
inductive ApiError where
  | notEnrolled : ApiError
  | notFound : String → ApiError
  | badRequest : String → ApiError
  deriving Repr, DecidableEq

/-- The loop body of `get_course_progress`'s best-attempt fold, projected to
one lesson id: `if attempt.lesson_id not in best_quiz_scores or
attempt.score > best_quiz_scores[attempt.lesson_id]["score"]: ...` —
a later attempt replaces the current best only when its score is strictly
greater. -/
def bestQuizFold (lid : Nat) (best : Option (ℚ × Bool)) (attempt : QuizAttempt) :
    Option (ℚ × Bool) :=
  if attempt.lesson_id = lid then
    match best with
    | none => some (attempt.score, attempt.passed)
    | some b => if b.1 < attempt.score then some (attempt.score, attempt.passed) else some b
  else best

/-- `best_quiz_scores[lid]` after `get_course_progress`'s scan of the
enrollment's quiz attempts in database order. -/
def bestQuizInfo (attempts : List QuizAttempt) (lid : Nat) : Option (ℚ × Bool) :=
  attempts.foldl (bestQuizFold lid) none

/-- `progress_map = {p.lesson_id: p for p in progress_records}` — a dict
comprehension keyed by lesson id, so a later row overwrites an earlier one
with the same lesson id. -/
def progressMapGet (ps : List LessonProgress) (lid : Nat) : Option LessonProgress :=
  ps.foldl (fun acc p => if p.lesson_id = lid then some p else acc) none

/-- One item of the list returned by `get_course_progress`. -/
structure LessonStatus where
  lesson_id : Nat
  title : String
  content_type : String
  order : Int
  is_completed : Bool
  is_unlocked : Bool
  quiz_passed : Option Bool
  best_score : Option ℚ
  passing_score : Option Int
  completed_at : Option Nat
  deriving Repr, DecidableEq

/-- The per-lesson effective-completion test of the progress view: a quiz
lesson is complete when its best attempt passed (`is_completed =
quiz_passed if quiz_passed is not None else False`), any other lesson when
its `LessonProgress` row (via `progress_map`) is marked completed. -/
def effectivelyComplete (ps : List LessonProgress) (atts : List QuizAttempt)
    (lesson : Lesson) : Bool :=
  if lesson.content_type = "quiz" then
    (((bestQuizInfo atts lesson.id).map (fun q => q.2)).getD false)
  else
    match progressMapGet ps lesson.id with
    | some p => p.is_completed
    | none => false

/-- The per-lesson loop of `get_course_progress`: `previous_completed`
starts `True`, each lesson is unlocked when it is first or the previous
lesson was (effectively) completed, and `previous_completed` is updated to
the current lesson's effective completion. -/
def viewRows (ps : List LessonProgress) (atts : List QuizAttempt) :
    List Lesson → Bool → Nat → List LessonStatus
  | [], _, _ => []
  | lesson :: rest, previous_completed, idx =>
    let progress := progressMapGet ps lesson.id
    let quiz_passed : Option Bool :=
      if lesson.content_type = "quiz" then (bestQuizInfo atts lesson.id).map (fun q => q.2)
      else none
    let best_score : Option ℚ :=
      if lesson.content_type = "quiz" then (bestQuizInfo atts lesson.id).map (fun q => q.1)
      else none
    let is_completed : Bool :=
      if lesson.content_type = "quiz" then quiz_passed.getD false
      else
        match progress with
        | some p => p.is_completed
        | none => false
    let is_unlocked : Bool := idx == 0 || previous_completed
    { lesson_id := lesson.id
      title := lesson.title
      content_type := lesson.content_type
      order := lesson.order
      is_completed := is_completed
      is_unlocked := is_unlocked
      quiz_passed := quiz_passed
      best_score := best_score
      passing_score :=
        if lesson.content_type = "quiz" then some lesson.quiz_passing_score else none
      completed_at := progress.bind (fun p => p.completed_at) }
      :: viewRows ps atts rest is_completed (idx + 1)

/-- The enrollment-level payload of `get_course_progress`. -/
structure ProgressView where
  overall_progress : ℚ
  status : String
  lessons : List LessonStatus
  deriving Repr, DecidableEq

/-- `GET /{course_id}/progress`: 403 when not enrolled, otherwise the
ordered lesson-status list with the enrollment's stored percentage. -/
def get_course_progress (s : EngineState) : Except ApiError ProgressView :=
  match s.enrollment with
  | none => .error .notEnrolled
  | some e =>
    .ok { overall_progress := e.progress_percentage
          status := e.status
          lessons := viewRows s.progress s.attempts s.lessons true 0 }

/-- The response shape of `GET .../can-access`; the blocking fields are
present only on a prerequisite denial. -/
structure AccessResult where
  can_access : Bool
  reason : String
  blocking_lesson_id : Option Nat
  blocking_lesson_title : Option String
  deriving Repr, DecidableEq

/-- A single-quote character for the f-string denial messages. -/
def sq : String := "\x27"

/-- `can_access_lesson`'s target-search loop: enumerate the ordered lessons
and break at the first one whose id matches, returning it with its index. -/
def findTargetAux : List Lesson → Nat → Nat → Option (Lesson × Nat)
  | [], _, _ => none
  | l :: rest, lesson_id, idx =>
    if l.id = lesson_id then some (l, idx) else findTargetAux rest lesson_id (idx + 1)

/-- The prerequisite test `can_access_lesson` applies to one earlier lesson:
for a quiz, some `QuizAttempt` row for it has `passed == True`; otherwise,
some `LessonProgress` row for it has `is_completed == True`. -/
def prereqOk (ps : List LessonProgress) (atts : List QuizAttempt) (lesson : Lesson) : Bool :=
  if lesson.content_type = "quiz" then
    atts.any (fun a => a.lesson_id == lesson.id && a.passed)
  else
    ps.any (fun p => p.lesson_id == lesson.id && p.is_completed)

/-- `can_access_lesson`'s scan over the lessons strictly before the target
(`for i in range(target_index)`): the first lesson failing its prerequisite
test produces the denial response immediately; `none` means every
prerequisite was satisfied. -/
def checkPrereqs (ps : List LessonProgress) (atts : List QuizAttempt) :
    List Lesson → Option AccessResult
  | [] => none
  | prev_lesson :: rest =>
    if prev_lesson.content_type = "quiz" then
      if atts.any (fun a => a.lesson_id == prev_lesson.id && a.passed) then
        checkPrereqs ps atts rest
      else
        some { can_access := false
               reason := "You must pass the quiz " ++ sq ++ prev_lesson.title ++ sq ++
                 " with at least " ++ toString prev_lesson.quiz_passing_score ++
                 "% before proceeding"
               blocking_lesson_id := some prev_lesson.id
               blocking_lesson_title := some prev_lesson.title }
    else
      if ps.any (fun p => p.lesson_id == prev_lesson.id && p.is_completed) then
        checkPrereqs ps atts rest
      else
        some { can_access := false
               reason := "You must complete " ++ sq ++ prev_lesson.title ++ sq ++
                 " before proceeding"
               blocking_lesson_id := some prev_lesson.id
               blocking_lesson_title := some prev_lesson.title }

/-- `GET /{course_id}/lessons/{lesson_id}/can-access`: denied when not
enrolled or the lesson id is not in the course's ordered lesson list; the
first lesson is always accessible; otherwise every lesson strictly before
the target must satisfy its prerequisite test. -/
def can_access_lesson (s : EngineState) (lesson_id : Nat) : AccessResult :=
  match s.enrollment with
  | none =>
    { can_access := false, reason := "Not enrolled in this course"
      blocking_lesson_id := none, blocking_lesson_title := none }
  | some _ =>
    match findTargetAux s.lessons lesson_id 0 with
    | none =>
      { can_access := false, reason := "Lesson not found"
        blocking_lesson_id := none, blocking_lesson_title := none }
    | some (_, target_index) =>
      if target_index = 0 then
        { can_access := true, reason := "First lesson"
          blocking_lesson_id := none, blocking_lesson_title := none }
      else
        match checkPrereqs s.progress s.attempts (s.lessons.take target_index) with
        | some r => r
        | none =>
          { can_access := true, reason := "All prerequisites completed"
            blocking_lesson_id := none, blocking_lesson_title := none }

/-- The get-or-create-and-complete write shared by `mark_lesson_complete`
and `submit_quiz`'s passed branch: the first `LessonProgress` row for the
lesson id is marked completed in place, or a new completed row is appended
when none exists. -/
def completeProgressRow (lesson_id : Nat) (now : Nat) :
    List LessonProgress → List LessonProgress
  | [] => [{ lesson_id := lesson_id, is_completed := true, completed_at := some now }]
  | p :: rest =>
    if p.lesson_id = lesson_id then
      { p with is_completed := true, completed_at := some now } :: rest
    else
      p :: completeProgressRow lesson_id now rest

/-- `POST /{course_id}/lessons/{lesson_id}/complete`: requires enrollment
(403 otherwise) but performs no lesson lookup at all.  It writes the
completed `LessonProgress` row, then recomputes the percentage as
`(completed-row count + 1) / total_lessons * 100` with no clamp — because
`autoflush=False`, the count query sees only rows committed before this
request, so the `+ 1` stands for the pending write.  Returns the new
percentage along with the committed state. -/
def mark_lesson_complete (s : EngineState) (lesson_id : Nat) (now : Nat) :
    Except ApiError (EngineState × ℚ) :=
  match s.enrollment with
  | none => .error .notEnrolled
  | some enrollment =>
    let progress' := completeProgressRow lesson_id now s.progress
    let total_lessons := s.lessons.length
    let completed_lessons := (s.progress.filter (fun p => p.is_completed)).length + 1
    let pct : ℚ :=
      if total_lessons > 0 then ((completed_lessons : ℚ) / (total_lessons : ℚ)) * 100 else 0
    let e1 : Enrollment :=
      { enrollment with progress_percentage := pct, last_accessed_at := some now }
    let e2 : Enrollment :=
      if pct ≥ 100 then { e1 with status := "completed", completed_at := some now } else e1
    .ok ({ s with progress := progress', enrollment := some e2 }, pct)

/-- `update_enrollment_progress`: recompute the stored percentage from the
completed-row count over the course's lesson count, clamped at 100 (0 when
the course has no lessons), marking the enrollment completed at 100.  The
caller passes the rows its queries can see; under `autoflush=False` these
are the rows committed before the request. -/
def update_enrollment_progress (lessons : List Lesson) (db_progress : List LessonProgress)
    (enrollment : Enrollment) (now : Nat) : Enrollment :=
  let total_lessons := lessons.length
  if total_lessons = 0 then
    { enrollment with progress_percentage := 0 }
  else
    let completed := (db_progress.filter (fun p => p.is_completed)).length
    let pct : ℚ := min (((completed : ℚ) / (total_lessons : ℚ)) * 100) 100
    if pct ≥ 100 then
      { enrollment with progress_percentage := pct, status := "completed", completed_at := some now }
    else
      { enrollment with progress_percentage := pct }

/-- The scoring loop of `submit_quiz`, accumulating
`(points_earned, points_possible)` over the authored questions: each
question contributes its points (default 10) to `points_possible`, and to
`points_earned` when the submitted answer equals `correct_answer`. -/
def scoreFold (answers : Nat → Option Int) (acc : Int × Int) (q : Question) : Int × Int :=
  let points := q.points.getD 10
  let user_answer := answers q.id
  if user_answer = q.correct_answer then (acc.1 + points, acc.2 + points)
  else (acc.1, acc.2 + points)

/-- The body of the `QuizResult` response (`score` here is the exact value
stored on the attempt row; the HTTP response additionally rounds its copy
to one decimal for display). -/
structure QuizResult where
  score : ℚ
  points_earned : Int
  points_possible : Int
  passed : Bool
  deriving Repr, DecidableEq

/-- `POST /{course_id}/lessons/{lesson_id}/quiz/submit`: 403 when not
enrolled, 404 when the lesson id is not in the course, 400 when the lesson
is not a quiz or has no questions (all raised before any write, so the
state is unchanged on error).  Otherwise score the submission, append the
attempt row, and on a pass complete the lesson's `LessonProgress` row and
recompute the enrollment percentage — with `autoflush=False` the recompute
counts only the rows committed before this request, so the row just
completed is not yet counted. -/
def submit_quiz (s : EngineState) (lesson_id : Nat) (answers : Nat → Option Int)
    (now : Nat) : Except ApiError (EngineState × QuizResult) :=
  match s.enrollment with
  | none => .error .notEnrolled
  | some enrollment =>
    match s.lessons.find? (fun l => l.id == lesson_id) with
    | none => .error (.notFound "Lesson not found")
    | some lesson =>
      if lesson.content_type ≠ "quiz" then .error (.badRequest "This lesson is not a quiz")
      else if lesson.quiz_questions = [] then .error (.badRequest "Quiz has no questions")
      else
        let pe_pp := lesson.quiz_questions.foldl (scoreFold answers) (0, 0)
        let points_earned := pe_pp.1
        let points_possible := pe_pp.2
        let score : ℚ :=
          if points_possible > 0 then
            (points_earned : ℚ) / (points_possible : ℚ) * 100
          else 0
        let passed : Bool := decide ((lesson.quiz_passing_score : ℚ) ≤ score)
        let attempt : QuizAttempt :=
          { lesson_id := lesson_id, score := score, points_earned := points_earned,
            points_possible := points_possible, passed := passed, submitted_at := now }
        let result : QuizResult :=
          { score := score, points_earned := points_earned,
            points_possible := points_possible, passed := passed }
        if passed then
          let progress' := completeProgressRow lesson_id now s.progress
          let enrollment' := update_enrollment_progress s.lessons s.progress enrollment now
          .ok ({ s with enrollment := some enrollment', progress := progress', attempts := s.attempts ++ [attempt] }, result)
        else
          .ok ({ s with attempts := s.attempts ++ [attempt] }, result)

/-! ### Concrete rows and states used in counterexamples and witnesses -/

/-- A plain video lesson with the given id. -/
def videoLesson (i : Nat) : Lesson where
  id := i
  title := "Video " ++ toString i
  content_type := "video"
  order := (i : Int)
  quiz_questions := []
  quiz_passing_score := 70

/-- A quiz lesson with one 10-point question whose correct answer is option 1,
passing score 70. -/
def quizLesson (i : Nat) : Lesson where
  id := i
  title := "Quiz " ++ toString i
  content_type := "quiz"
  order := (i : Int)
  quiz_questions := [{ id := 1, correct_answer := some 1, points := none }]
  quiz_passing_score := 70

/-- A fresh, active enrollment. -/
def freshEnrollment : Enrollment where
  progress_percentage := 0
  status := "active"
  completed_at := none
  last_accessed_at := none

/-- A completed `LessonProgress` row for the given lesson id. -/
def doneRow (i : Nat) (t : Nat) : LessonProgress where
  lesson_id := i
  is_completed := true
  completed_at := some t

/-- Two video lessons with the first one completed. -/
def c5WitnessState : EngineState where
  lessons := [videoLesson 1, videoLesson 2]
  enrollment := some freshEnrollment
  progress := [doneRow 1 0]
  attempts := []

/-- The second row of the progress view of `c5WitnessState`. -/
def c5WitnessRow1 : LessonStatus where
  lesson_id := 2
  title := "Video 2"
  content_type := "video"
  order := 2
  is_completed := false
  is_unlocked := true
  quiz_passed := none
  best_score := none
  passing_score := none
  completed_at := none

/-- The progress view of `c5WitnessState`. -/
def c5WitnessView : ProgressView where
  overall_progress := 0
  status := "active"
  lessons :=
    [{ lesson_id := 1
       title := "Video 1"
       content_type := "video"
       order := 1
       is_completed := true
       is_unlocked := true
       quiz_passed := none
       best_score := none
       passing_score := none
       completed_at := some 0 },
     c5WitnessRow1]

/-- A failed attempt at lesson 1 scoring 40. -/
def attempt40 : QuizAttempt where
  lesson_id := 1
  score := 40
  points_earned := 4
  points_possible := 10
  passed := false
  submitted_at := 0

/-- A passed attempt at lesson 1 scoring 90. -/
def attempt90 : QuizAttempt where
  lesson_id := 1
  score := 90
  points_earned := 9
  points_possible := 10
  passed := true
  submitted_at := 1

/-- A failed attempt at lesson 1 scoring 60. -/
def attempt60 : QuizAttempt where
  lesson_id := 1
  score := 60
  points_earned := 6
  points_possible := 10
  passed := false
  submitted_at := 2

/-- A later attempt at lesson 1 that ties `attempt40`'s score but passed
(recordable after the quiz's passing score is lowered). -/
def attempt40Tie : QuizAttempt where
  lesson_id := 1
  score := 40
  points_earned := 4
  points_possible := 10
  passed := true
  submitted_at := 3

/-- A one-video-lesson course with a fresh enrollment. -/
def oneLessonState : EngineState where
  lessons := [videoLesson 1]
  enrollment := some freshEnrollment
  progress := []
  attempts := []

/-- State of `oneLessonState` after one `mark_lesson_complete` on lesson 1
at time 0. -/
def markedOnceState : EngineState where
  lessons := [videoLesson 1]
  enrollment := some { progress_percentage := 100, status := "completed", completed_at := some 0, last_accessed_at := some 0 }
  progress := [doneRow 1 0]
  attempts := []

/-- State of `markedOnceState` after a second `mark_lesson_complete` on
lesson 1 at time 1: the percentage double-counts the already-committed row
and reaches 200. -/
def markedTwiceState : EngineState where
  lessons := [videoLesson 1]
  enrollment := some { progress_percentage := 200, status := "completed", completed_at := some 1, last_accessed_at := some 1 }
  progress := [doneRow 1 1]
  attempts := []

/-- State of `oneLessonState` after `mark_lesson_complete` on the
nonexistent lesson id 99 at time 5: the write happens anyway. -/
def c6AfterState : EngineState where
  lessons := [videoLesson 1]
  enrollment := some { progress_percentage := 100, status := "completed", completed_at := some 5, last_accessed_at := some 5 }
  progress := [doneRow 99 5]
  attempts := []

/-- A video lesson followed by the one-question quiz lesson 1. -/
def c7State : EngineState where
  lessons := [videoLesson 3, quizLesson 1]
  enrollment := some freshEnrollment
  progress := []
  attempts := []

/-- Answers choosing option 1 on question 1 (the correct answer of
`quizLesson`). -/
def correctAnswers : Nat → Option Int := fun i => if i = 1 then some 1 else none

/-- The quiz result of submitting `correctAnswers` to `quizLesson`. -/
def c7Result : QuizResult where
  score := 100
  points_earned := 10
  points_possible := 10
  passed := true

/-- State of `c7State` after submitting `correctAnswers` to quiz lesson 1
at time 7. -/
def c7AfterState : EngineState where
  lessons := [videoLesson 3, quizLesson 1]
  enrollment := some freshEnrollment
  progress := [doneRow 1 7]
  attempts := [{ lesson_id := 1, score := 100, points_earned := 10, points_possible := 10, passed := true, submitted_at := 7 }]

/-- A three-lesson course (video, quiz, video) with a fresh enrollment:
lessons 2 and 3 are locked in the progress view. -/
def c10State : EngineState where
  lessons := [videoLesson 1, quizLesson 2, videoLesson 3]
  enrollment := some freshEnrollment
  progress := []
  attempts := []

/-- The denial response `can_access_lesson` builds for a failed
prerequisite at lesson `l` (quiz wording for quiz lessons, completion
wording otherwise). -/
def blockingDenial (l : Lesson) : AccessResult where
  can_access := false
  reason :=
    if l.content_type = "quiz" then
      "You must pass the quiz " ++ sq ++ l.title ++ sq ++ " with at least " ++
        toString l.quiz_passing_score ++ "% before proceeding"
    else
      "You must complete " ++ sq ++ l.title ++ sq ++ " before proceeding"
  blocking_lesson_id := some l.id
  blocking_lesson_title := some l.title

/-- Three video lessons with only the middle one completed: the progress
view unlocks lesson 3 (its predecessor is complete) while the access check
denies lesson 3 (lesson 1 is incomplete). -/
def c1CexState : EngineState where
  lessons := [videoLesson 1, videoLesson 2, videoLesson 3]
  enrollment := some freshEnrollment
  progress := [doneRow 2 0]
  attempts := []

/-- One quiz lesson whose two attempts tie at score 40, the earlier one
failed and the later one passed (a state the engine reaches when the
passing score is lowered between the submissions): the view keeps the
first, failed attempt as best. -/
def c4CexState : EngineState where
  lessons := [quizLesson 1]
  enrollment := some freshEnrollment
  progress := []
  attempts := [attempt40, attempt40Tie]

/-- The quiz row of the progress view of `c7AfterState` at index 1. -/
def c4WitnessRow : LessonStatus where
  lesson_id := 1
  title := "Quiz 1"
  content_type := "quiz"
  order := 1
  is_completed := true
  is_unlocked := false
  quiz_passed := some true
  best_score := some 100
  passing_score := some 70
  completed_at := some 7

/-! ### Auxiliary lemmas about the progress view -/

/-- Unfolding equation for `viewRows` on a non-empty lesson list, with the
head's completion flag expressed through `effectivelyComplete`. -/
theorem viewRows_cons (ps : List LessonProgress) (atts : List QuizAttempt)
    (lesson : Lesson) (rest : List Lesson) (prev : Bool) (idx : Nat) :
    viewRows ps atts (lesson :: rest) prev idx =
      { lesson_id := lesson.id
        title := lesson.title
        content_type := lesson.content_type
        order := lesson.order
        is_completed := effectivelyComplete ps atts lesson
        is_unlocked := (idx == 0 || prev)
        quiz_passed :=
          if lesson.content_type = "quiz" then (bestQuizInfo atts lesson.id).map (fun q => q.2)
          else none
        best_score :=
          if lesson.content_type = "quiz" then (bestQuizInfo atts lesson.id).map (fun q => q.1)
          else none
        passing_score :=
          if lesson.content_type = "quiz" then some lesson.quiz_passing_score else none
        completed_at := (progressMapGet ps lesson.id).bind (fun p => p.completed_at) }
      :: viewRows ps atts rest (effectivelyComplete ps atts lesson) (idx + 1) := by
  by_cases h : lesson.content_type = "quiz" <;>
    simp [viewRows, effectivelyComplete, h]

theorem viewRows_length (ps : List LessonProgress) (atts : List QuizAttempt) :
    ∀ (ls : List Lesson) (prev : Bool) (idx : Nat),
      (viewRows ps atts ls prev idx).length = ls.length := by
  intro ls
  induction ls with
  | nil => intro prev idx; rfl
  | cons lesson rest ih =>
    intro prev idx
    rw [viewRows_cons]
    simp [ih]

theorem viewRows_get?_is_completed (ps : List LessonProgress) (atts : List QuizAttempt) :
    ∀ (ls : List Lesson) (prev : Bool) (idx : Nat) (j : Nat),
      ((viewRows ps atts ls prev idx).get? j).map (fun r => r.is_completed)
        = (ls.get? j).map (effectivelyComplete ps atts) := by
  intro ls
  induction ls with
  | nil => intro prev idx j; rfl
  | cons lesson rest ih =>
    intro prev idx j
    rw [viewRows_cons]
    match j with
    | 0 => rfl
    | j + 1 => simpa using ih (effectivelyComplete ps atts lesson) (idx + 1) j

theorem viewRows_get?_is_unlocked_zero (ps : List LessonProgress) (atts : List QuizAttempt)
    (ls : List Lesson) (prev : Bool) (idx : Nat) (row : LessonStatus)
    (h : (viewRows ps atts ls prev idx).get? 0 = some row) :
    row.is_unlocked = (idx == 0 || prev) := by
  match ls with
  | [] => exact absurd h (by simp [viewRows])
  | lesson :: rest =>
    rw [viewRows_cons] at h
    simp only [List.get?_cons_zero, Option.some.injEq] at h
    rw [← h]

theorem viewRows_get?_is_unlocked_succ (ps : List LessonProgress) (atts : List QuizAttempt) :
    ∀ (ls : List Lesson) (prev : Bool) (idx : Nat) (j : Nat) (row : LessonStatus),
      (viewRows ps atts ls prev idx).get? (j + 1) = some row →
      ∃ lesson, ls.get? j = some lesson ∧
        row.is_unlocked = effectivelyComplete ps atts lesson := by
  intro ls
  induction ls with
  | nil => intro prev idx j row h; exact absurd h (by simp [viewRows])
  | cons lesson rest ih =>
    intro prev idx j row h
    rw [viewRows_cons] at h
    simp only [List.get?_cons_succ] at h
    match j with
    | 0 =>
      refine ⟨lesson, rfl, ?_⟩
      have := viewRows_get?_is_unlocked_zero ps atts rest
        (effectivelyComplete ps atts lesson) (idx + 1) row h
      simpa using this
    | j + 1 =>
      obtain ⟨l2, hl2, hu⟩ := ih (effectivelyComplete ps atts lesson) (idx + 1) j row h
      exact ⟨l2, by simpa using hl2, hu⟩

/-! ### Inversion lemmas for the write operations -/

/-- Characterization of a successful `mark_lesson_complete` call: it
requires only an enrollment, completes the first (or a fresh) progress row
for the given id, and stores the unclamped `(count + 1) / total * 100`
percentage computed from the pre-request rows. -/
theorem mark_lesson_complete_ok_spec (s : EngineState) (lid now : Nat)
    (s' : EngineState) (pct : ℚ)
    (hok : mark_lesson_complete s lid now = Except.ok (s', pct)) :
    ∃ e, s.enrollment = some e ∧
      s'.lessons = s.lessons ∧ s'.attempts = s.attempts ∧
      s'.progress = completeProgressRow lid now s.progress ∧
      pct = (if 0 < s.lessons.length then
              (((s.progress.filter (fun p => p.is_completed)).length + 1 : ℚ))
                / (s.lessons.length : ℚ) * 100
             else 0) ∧
      ∃ e2, s'.enrollment = some e2 ∧ e2.progress_percentage = pct ∧
        e2.status = (if pct ≥ 100 then "completed" else e.status) := by
  unfold mark_lesson_complete at hok
  match he : s.enrollment with
  | none => rw [he] at hok; exact absurd hok (by simp)
  | some e =>
    rw [he] at hok
    simp only [Except.ok.injEq, Prod.mk.injEq] at hok
    obtain ⟨hs', hpct⟩ := hok
    refine ⟨e, rfl, ?_, ?_, ?_, ?_, ?_⟩
    · rw [← hs']
    · rw [← hs']
    · rw [← hs']
    · rw [← hpct]; push_cast; ring_nf
    · by_cases h100 : (if 0 < s.lessons.length then
          (((s.progress.filter (fun p => p.is_completed)).length : ℚ) + 1)
            / (s.lessons.length : ℚ) * 100 else 0) ≥ 100
      · refine ⟨_, by rw [← hs'], ?_, ?_⟩ <;>
          simp only [← hs', ← hpct, if_pos h100] <;> simp [h100]
      · refine ⟨_, by rw [← hs'], ?_, ?_⟩ <;>
          simp only [← hs', ← hpct, if_neg h100] <;> simp [h100]

/-- A successful `mark_lesson_complete` exists whenever the user is
enrolled, whatever the lesson id: the endpoint never looks the lesson up. -/
theorem mark_lesson_complete_ok_of_enrolled (s : EngineState) (e : Enrollment)
    (lid now : Nat) (he : s.enrollment = some e) :
    ∃ s' pct, mark_lesson_complete s lid now = Except.ok (s', pct) := by
  unfold mark_lesson_complete
  rw [he]
  exact ⟨_, _, rfl⟩

/-- Characterization of a successful `submit_quiz` call. -/
theorem submit_quiz_ok_spec (s : EngineState) (lid : Nat) (answers : Nat → Option Int)
    (now : Nat) (s' : EngineState) (r : QuizResult)
    (hok : submit_quiz s lid answers now = Except.ok (s', r)) :
    ∃ e lesson, s.enrollment = some e ∧
      s.lessons.find? (fun l => l.id == lid) = some lesson ∧
      lesson.content_type = "quiz" ∧ lesson.quiz_questions ≠ [] ∧
      r.points_earned = (lesson.quiz_questions.foldl (scoreFold answers) (0, 0)).1 ∧
      r.points_possible = (lesson.quiz_questions.foldl (scoreFold answers) (0, 0)).2 ∧
      r.score = (if 0 < r.points_possible then
                  (r.points_earned : ℚ) / (r.points_possible : ℚ) * 100 else 0) ∧
      r.passed = decide ((lesson.quiz_passing_score : ℚ) ≤ r.score) ∧
      s'.lessons = s.lessons ∧
      s'.attempts = s.attempts ++
        [{ lesson_id := lid, score := r.score, points_earned := r.points_earned,
           points_possible := r.points_possible, passed := r.passed, submitted_at := now }] ∧
      ((r.passed = true ∧ s'.progress = completeProgressRow lid now s.progress ∧
         s'.enrollment = some (update_enrollment_progress s.lessons s.progress e now)) ∨
       (r.passed = false ∧ s'.progress = s.progress ∧ s'.enrollment = s.enrollment)) := by
  unfold submit_quiz at hok
  match he : s.enrollment with
  | none => rw [he] at hok; exact absurd hok (by simp)
  | some e =>
    rw [he] at hok
    match hfind : s.lessons.find? (fun l => l.id == lid) with
    | none => rw [hfind] at hok; exact absurd hok (by simp)
    | some lesson =>
      rw [hfind] at hok
      dsimp only at hok
      by_cases hct : lesson.content_type ≠ "quiz"
      · rw [if_pos hct] at hok; exact absurd hok (by simp)
      · rw [if_neg hct] at hok
        rw [not_not] at hct
        by_cases hq : lesson.quiz_questions = []
        · rw [if_pos hq] at hok; exact absurd hok (by simp)
        · rw [if_neg hq] at hok
          refine ⟨e, lesson, rfl, hfind, hct, hq, ?_⟩
          simp only [decide_eq_true_eq] at hok
          split at hok <;> split at hok
          · rename_i hpp hpass
            simp only [Except.ok.injEq, Prod.mk.injEq] at hok
            obtain ⟨hs', hr⟩ := hok
            subst hs' hr
            exact ⟨rfl, rfl, by rw [if_pos hpp], rfl, rfl, rfl,
              Or.inl ⟨decide_eq_true hpass, rfl, rfl⟩⟩
          · rename_i hpp hpass
            simp only [Except.ok.injEq, Prod.mk.injEq] at hok
            obtain ⟨hs', hr⟩ := hok
            subst hs' hr
            exact ⟨rfl, rfl, by rw [if_pos hpp], rfl, rfl, rfl,
              Or.inr ⟨decide_eq_false hpass, rfl, rfl⟩⟩
          · rename_i hpp hpass
            simp only [Except.ok.injEq, Prod.mk.injEq] at hok
            obtain ⟨hs', hr⟩ := hok
            subst hs' hr
            exact ⟨rfl, rfl, by rw [if_neg hpp], rfl, rfl, rfl,
              Or.inl ⟨decide_eq_true hpass, rfl, rfl⟩⟩
          · rename_i hpp hpass
            simp only [Except.ok.injEq, Prod.mk.injEq] at hok
            obtain ⟨hs', hr⟩ := hok
            subst hs' hr
            exact ⟨rfl, rfl, by rw [if_neg hpp], rfl, rfl, rfl,
              Or.inr ⟨decide_eq_false hpass, rfl, rfl⟩⟩

/-- The scoring loop computes the sum of the points of all questions and of
the correctly-answered ones. -/
theorem scoreFold_sums (answers : Nat → Option Int) :
    ∀ (qs : List Question) (a b : Int),
      qs.foldl (scoreFold answers) (a, b) =
        (a + ((qs.filter (fun q => answers q.id == q.correct_answer)).map
                (fun q => q.points.getD 10)).sum,
         b + (qs.map (fun q => q.points.getD 10)).sum) := by
  intro qs
  induction qs with
  | nil => intro a b; simp
  | cons q rest ih =>
    intro a b
    by_cases h : answers q.id = q.correct_answer <;>
      simp [scoreFold, h, ih, add_assoc]

/-- The get-or-create-and-complete write always leaves a completed row for
the requested lesson id. -/
theorem completeProgressRow_mem (lid now : Nat) :
    ∀ ps : List LessonProgress, ∃ p ∈ completeProgressRow lid now ps,
      p.lesson_id = lid ∧ p.is_completed = true := by
  intro ps
  induction ps with
  | nil =>
    exact ⟨{ lesson_id := lid, is_completed := true, completed_at := some now },
      by simp [completeProgressRow], rfl, rfl⟩
  | cons p rest ih =>
    by_cases h : p.lesson_id = lid
    · refine ⟨{ p with is_completed := true, completed_at := some now },
        ?_, h, rfl⟩
      simp [completeProgressRow, h]
    · obtain ⟨q, hq, h1, h2⟩ := ih
      exact ⟨q, by simp [completeProgressRow, h, hq], h1, h2⟩

/-- A quiz submission on an existing quiz lesson with questions always
succeeds: no unlock or prerequisite condition is checked. -/
theorem submit_quiz_succeeds (s : EngineState) (e : Enrollment) (lesson : Lesson)
    (lid : Nat) (answers : Nat → Option Int) (now : Nat)
    (he : s.enrollment = some e)
    (hfind : s.lessons.find? (fun l => l.id == lid) = some lesson)
    (hct : lesson.content_type = "quiz") (hq : lesson.quiz_questions ≠ []) :
    ∃ s' r, submit_quiz s lid answers now = Except.ok (s', r) := by
  unfold submit_quiz
  rw [he, hfind]
  dsimp only
  rw [if_neg (by simp [hct]), if_neg hq]
  split <;> split <;> exact ⟨_, _, rfl⟩

/-! ### C5: first-lesson invariant and sequential unlock in the progress view -/

/-- C5: in the ordered list returned by the progress view, the lesson at
index 0 is always unlocked, and for every later index `j + 1` the lesson is
unlocked exactly when the lesson at index `j` is effectively complete
(completed `LessonProgress` row for non-quiz lessons, best attempt passed
for quiz lessons). -/
theorem c5_first_lesson_and_sequential_unlock (s : EngineState) (v : ProgressView)
    (hv : get_course_progress s = Except.ok v) :
    (∀ row : LessonStatus, v.lessons.get? 0 = some row → row.is_unlocked = true) ∧
    (∀ (j : Nat) (row : LessonStatus) (lesson : Lesson),
      v.lessons.get? (j + 1) = some row → s.lessons.get? j = some lesson →
      (row.is_unlocked = true ↔
        effectivelyComplete s.progress s.attempts lesson = true)) := by
  have hl : v.lessons = viewRows s.progress s.attempts s.lessons true 0 := by
    unfold get_course_progress at hv
    match he : s.enrollment with
    | none => rw [he] at hv; exact absurd hv (by simp)
    | some e =>
      rw [he] at hv
      simp only [Except.ok.injEq] at hv
      rw [← hv]
  constructor
  · intro row h
    rw [hl] at h
    have := viewRows_get?_is_unlocked_zero s.progress s.attempts s.lessons true 0 row h
    simpa using this
  · intro j row lesson hrow hlesson
    rw [hl] at hrow
    obtain ⟨lesson2, hl2, hu⟩ :=
      viewRows_get?_is_unlocked_succ s.progress s.attempts s.lessons true 0 j row hrow
    rw [hlesson] at hl2
    obtain rfl : lesson = lesson2 := by simpa using hl2
    rw [hu]

/-- Witness for C5 at a concrete two-lesson course with the first lesson
completed: the second view row is unlocked exactly when the first lesson is
effectively complete. -/
theorem c5_first_lesson_and_sequential_unlock_witness :
    get_course_progress c5WitnessState = Except.ok c5WitnessView ∧
    c5WitnessView.lessons.get? 1 = some c5WitnessRow1 ∧
    (c5WitnessRow1.is_unlocked = true ↔
      effectivelyComplete c5WitnessState.progress c5WitnessState.attempts
        (videoLesson 1) = true) :=
  ⟨rfl, rfl,
    (c5_first_lesson_and_sequential_unlock c5WitnessState c5WitnessView rfl).2
      0 c5WitnessRow1 (videoLesson 1) rfl rfl⟩

/-! ### C9: best-attempt selection by strict greater-than -/

/-- C9: the best-attempt fold keeps the first attempt encountered when a
later attempt ties its score (replacement requires strictly greater score),
and for the attempts scoring 40 (failed), 90 (passed), 60 (failed) in every
submission order the progress view reports best score 90 and quiz passed. -/
theorem c9_best_attempt_strict_greater :
    (∀ (atts : List QuizAttempt) (lid : Nat) (a : QuizAttempt) (q : ℚ × Bool),
      bestQuizInfo atts lid = some q → a.lesson_id = lid → a.score = q.1 →
      bestQuizInfo (atts ++ [a]) lid = some q) ∧
    (∀ l ∈ [[attempt40, attempt90, attempt60], [attempt40, attempt60, attempt90],
            [attempt90, attempt40, attempt60], [attempt90, attempt60, attempt40],
            [attempt60, attempt40, attempt90], [attempt60, attempt90, attempt40]],
      (viewRows [] l [quizLesson 1] true 0).map (fun r => (r.best_score, r.quiz_passed))
        = [(some 90, some true)]) := by
  constructor
  · intro atts lid a q hq hlid hscore
    unfold bestQuizInfo at hq ⊢
    rw [List.foldl_append, hq]
    simp only [List.foldl_cons, List.foldl_nil, bestQuizFold, hlid, if_pos rfl, hscore]
    simp
  · decide

/-- Witness for C9: appending a tying passed attempt after a failed attempt
with the same score leaves the failed attempt selected, and one concrete
ordering of the 40/90/60 attempts yields best score 90, passed. -/
theorem c9_best_attempt_strict_greater_witness :
    bestQuizInfo ([attempt40] ++ [attempt40Tie]) 1 = some (40, false) ∧
    (viewRows [] [attempt60, attempt90, attempt40] [quizLesson 1] true 0).map
        (fun r => (r.best_score, r.quiz_passed)) = [(some 90, some true)] :=
  ⟨c9_best_attempt_strict_greater.1 [attempt40] 1 attempt40Tie (40, false) rfl rfl rfl,
   c9_best_attempt_strict_greater.2 [attempt60, attempt90, attempt40] (by decide)⟩

/-! ### C7: quiz scoring -/

/-- C7: a successful quiz submission reports `points_possible` as the sum
of the questions' points (default 10), `points_earned` as the sum over the
correctly-answered questions, `score` as `earned / possible * 100` when
`possible > 0` and `0` otherwise, and `passed` exactly when the score
reaches the lesson's passing score. -/
theorem c7_quiz_scoring (s : EngineState) (lesson_id : Nat)
    (answers : Nat → Option Int) (now : Nat) (s' : EngineState) (r : QuizResult)
    (lesson : Lesson)
    (hfind : s.lessons.find? (fun l => l.id == lesson_id) = some lesson)
    (hok : submit_quiz s lesson_id answers now = Except.ok (s', r)) :
    r.points_possible = (lesson.quiz_questions.map (fun q => q.points.getD 10)).sum ∧
    r.points_earned = ((lesson.quiz_questions.filter
        (fun q => answers q.id == q.correct_answer)).map (fun q => q.points.getD 10)).sum ∧
    r.score = (if 0 < r.points_possible then
        (r.points_earned : ℚ) / (r.points_possible : ℚ) * 100 else 0) ∧
    (r.passed = true ↔ (lesson.quiz_passing_score : ℚ) ≤ r.score) := by
  obtain ⟨e, lesson2, he, hfind2, hct, hq, hpe, hpp, hscore, hpassed, _⟩ :=
    submit_quiz_ok_spec s lesson_id answers now s' r hok
  rw [hfind] at hfind2
  obtain rfl : lesson = lesson2 := by simpa using hfind2
  refine ⟨?_, ?_, hscore, ?_⟩
  · rw [hpp, scoreFold_sums answers lesson.quiz_questions 0 0]
    simp
  · rw [hpe, scoreFold_sums answers lesson.quiz_questions 0 0]
    simp
  · rw [hpassed]
    exact decide_eq_true_iff

/-- Witness for C7: submitting the correct answer to the one-question
quiz lesson 1 yields 10/10 points, score 100 and a pass against passing
score 70. -/
theorem c7_quiz_scoring_witness :
    c7Result.points_possible
        = ((quizLesson 1).quiz_questions.map (fun q => q.points.getD 10)).sum ∧
    c7Result.points_earned = (((quizLesson 1).quiz_questions.filter
        (fun q => correctAnswers q.id == q.correct_answer)).map
          (fun q => q.points.getD 10)).sum ∧
    c7Result.score = (if 0 < c7Result.points_possible then
        (c7Result.points_earned : ℚ) / (c7Result.points_possible : ℚ) * 100 else 0) ∧
    (c7Result.passed = true ↔ ((quizLesson 1).quiz_passing_score : ℚ) ≤ c7Result.score) :=
  c7_quiz_scoring c7State 1 correctAnswers 7 c7AfterState c7Result (quizLesson 1) rfl
    (by norm_num [submit_quiz, c7State, c7AfterState, c7Result, correctAnswers,
      freshEnrollment, completeProgressRow, videoLesson, quizLesson, doneRow,
      scoreFold, update_enrollment_progress])

/-! ### C10: the write operations do not enforce sequential unlocking -/

/-- C10: for an enrolled user, `mark_lesson_complete` succeeds for every
lesson id and `submit_quiz` succeeds for every quiz lesson of the course
with questions (recording the attempt and, on a pass, a completed progress
row), regardless of any lock state: the sequential-access rule lives only
in the read endpoints. -/
theorem c10_mutations_ignore_locks (s : EngineState) (e : Enrollment)
    (he : s.enrollment = some e) :
    (∀ lid now : Nat, ∃ s' pct, mark_lesson_complete s lid now = Except.ok (s', pct)) ∧
    (∀ (lid : Nat) (answers : Nat → Option Int) (now : Nat) (lesson : Lesson),
      s.lessons.find? (fun l => l.id == lid) = some lesson →
      lesson.content_type = "quiz" → lesson.quiz_questions ≠ [] →
      ∃ s' r, submit_quiz s lid answers now = Except.ok (s', r) ∧
        s'.attempts.length = s.attempts.length + 1 ∧
        (r.passed = true →
          ∃ p ∈ s'.progress, p.lesson_id = lid ∧ p.is_completed = true)) := by
  constructor
  · intro lid now
    exact mark_lesson_complete_ok_of_enrolled s e lid now he
  · intro lid answers now lesson hfind hct hq
    obtain ⟨s', r, hok⟩ := submit_quiz_succeeds s e lesson lid answers now he hfind hct hq
    obtain ⟨e2, lesson2, _, _, _, _, _, _, _, _, _, hatts, hbranch⟩ :=
      submit_quiz_ok_spec s lid answers now s' r hok
    refine ⟨s', r, hok, by simp [hatts], ?_⟩
    intro hpassed
    rcases hbranch with ⟨_, hprog, _⟩ | ⟨hfalse, _, _⟩
    · rw [hprog]
      exact completeProgressRow_mem lid now s.progress
    · rw [hpassed] at hfalse
      exact absurd hfalse (by simp)

/-- Witness for C10: in a fresh three-lesson course where lessons 2 and 3
are locked in the progress view, marking lesson 3 complete succeeds and
submitting quiz lesson 2 succeeds. -/
theorem c10_mutations_ignore_locks_witness :
    (viewRows c10State.progress c10State.attempts c10State.lessons true 0).map
        (fun row => row.is_unlocked) = [true, false, false] ∧
    (∃ s' pct, mark_lesson_complete c10State 3 9 = Except.ok (s', pct)) ∧
    (∃ s' r, submit_quiz c10State 2 correctAnswers 9 = Except.ok (s', r) ∧
      s'.attempts.length = c10State.attempts.length + 1 ∧
      (r.passed = true → ∃ p ∈ s'.progress, p.lesson_id = 2 ∧ p.is_completed = true)) :=
  ⟨by decide,
   (c10_mutations_ignore_locks c10State freshEnrollment rfl).1 3 9,
   (c10_mutations_ignore_locks c10State freshEnrollment rfl).2 2 correctAnswers 9
     (quizLesson 2) rfl rfl (by decide)⟩

/-! ### C6: lesson-id validation of the write operations -/

/-- Counterexample to C6: with an enrolled user, `mark_lesson_complete` on
lesson id 99 — which belongs to no lesson of the course — does not fail
with a not-found error; it succeeds and writes a completed progress row for
the bogus id. -/
theorem c6_counterexample :
    (∀ l ∈ oneLessonState.lessons, l.id ≠ 99) ∧
    mark_lesson_complete oneLessonState 99 5 = Except.ok (c6AfterState, 100) ∧
    c6AfterState.progress ≠ oneLessonState.progress := by
  refine ⟨by decide, ?_, by decide⟩
  norm_num [mark_lesson_complete, oneLessonState, c6AfterState, freshEnrollment,
    completeProgressRow, videoLesson, doneRow]

/-- C6 as amended: `submit_quiz` fails with a not-found error (and, raising
before any write, leaves the state unchanged) when the lesson id is not in
the stated course, while `mark_lesson_complete` performs no lesson lookup:
for an enrolled user it succeeds on every lesson id and writes a completed
progress row for it. -/
theorem c6_amended_lesson_validation (s : EngineState) (e : Enrollment)
    (he : s.enrollment = some e) :
    (∀ (tid : Nat) (answers : Nat → Option Int) (now : Nat),
      s.lessons.find? (fun l => l.id == tid) = none →
      submit_quiz s tid answers now = Except.error (ApiError.notFound "Lesson not found")) ∧
    (∀ tid now : Nat, ∃ s' pct, mark_lesson_complete s tid now = Except.ok (s', pct) ∧
      ∃ p ∈ s'.progress, p.lesson_id = tid ∧ p.is_completed = true) := by
  constructor
  · intro tid answers now hfind
    unfold submit_quiz
    rw [he, hfind]
  · intro tid now
    obtain ⟨s', pct, hok⟩ := mark_lesson_complete_ok_of_enrolled s e tid now he
    obtain ⟨e0, he', hl, ha, hprog, hpct, hrest⟩ :=
      mark_lesson_complete_ok_spec s tid now s' pct hok
    refine ⟨s', pct, hok, ?_⟩
    rw [hprog]
    exact completeProgressRow_mem tid now s.progress

/-- Witness for the amended C6: submitting a quiz for the unknown lesson id
42 returns the not-found error, and marking the unknown lesson id 99
complete succeeds with a completed row written for id 99. -/
theorem c6_amended_lesson_validation_witness :
    submit_quiz oneLessonState 42 correctAnswers 3
        = Except.error (ApiError.notFound "Lesson not found") ∧
    (∃ s' pct, mark_lesson_complete oneLessonState 99 5 = Except.ok (s', pct) ∧
      ∃ p ∈ s'.progress, p.lesson_id = 99 ∧ p.is_completed = true) :=
  ⟨(c6_amended_lesson_validation oneLessonState freshEnrollment rfl).1 42
      correctAnswers 3 (by decide),
   (c6_amended_lesson_validation oneLessonState freshEnrollment rfl).2 99 5⟩

/-! ### C2 and C3: the completion percentage double-counts and exceeds 100 -/

/-- Evaluation for C2: on a one-lesson course, the first
`mark_lesson_complete` stores 100 % but the second call on the same lesson
stores 200 % — the completed-count query (run with `autoflush=False`
against the committed rows) already counts the lesson's row and the `+ 1`
double-counts it, so the operation is not idempotent. -/
theorem c2_mark_complete_not_idempotent :
    mark_lesson_complete oneLessonState 1 0 = Except.ok (markedOnceState, 100) ∧
    mark_lesson_complete markedOnceState 1 1 = Except.ok (markedTwiceState, 200) ∧
    (200 : ℚ) ≠ 100 := by
  refine ⟨?_, ?_, by norm_num⟩ <;>
    norm_num [mark_lesson_complete, oneLessonState, markedOnceState, markedTwiceState,
      freshEnrollment, completeProgressRow, videoLesson, doneRow]

/-- Evaluation for C3: after the second `mark_lesson_complete` on the
one-lesson course the stored `progress_percentage` is 200, violating the
[0, 100] bound — `mark_lesson_complete` recomputes the percentage without
the `min(…, 100)` clamp its sibling `update_enrollment_progress` applies. -/
theorem c3_percentage_exceeds_100 :
    mark_lesson_complete markedOnceState 1 1 = Except.ok (markedTwiceState, 200) ∧
    (∃ e, markedTwiceState.enrollment = some e ∧ e.progress_percentage = 200) ∧
    ¬ ((200 : ℚ) ≤ 100) := by
  refine ⟨?_, ⟨_, rfl, rfl⟩, by norm_num⟩
  norm_num [mark_lesson_complete, markedOnceState, markedTwiceState,
    completeProgressRow, videoLesson, doneRow]

/-! ### Lemmas about the best-attempt selection -/

/-- Step equation of the best-attempt fold from an empty accumulator. -/
theorem bestQuizFold_none (lid : Nat) (a : QuizAttempt) :
    bestQuizFold lid none a =
      if a.lesson_id = lid then some (a.score, a.passed) else none := by
  unfold bestQuizFold
  by_cases hl : a.lesson_id = lid <;> simp [hl]

/-- Step equation of the best-attempt fold from a held best value. -/
theorem bestQuizFold_some (lid : Nat) (a : QuizAttempt) (p : ℚ × Bool) :
    bestQuizFold lid (some p) a =
      if a.lesson_id = lid then
        (if p.1 < a.score then some (a.score, a.passed) else some p)
      else some p := by
  unfold bestQuizFold
  by_cases hl : a.lesson_id = lid <;> simp [hl]

/-- Any value produced by the best-attempt fold is either the initial
accumulator or the score/passed pair of one of the scanned attempts. -/
theorem bestQuizInfo_mem (lid : Nat) :
    ∀ (atts : List QuizAttempt) (b : Option (ℚ × Bool)) (q : ℚ × Bool),
      atts.foldl (bestQuizFold lid) b = some q →
      b = some q ∨ ∃ a ∈ atts, a.lesson_id = lid ∧ q = (a.score, a.passed) := by
  intro atts
  induction atts with
  | nil => intro b q h; exact Or.inl h
  | cons a rest ih =>
    intro b q h
    simp only [List.foldl_cons] at h
    rcases ih (bestQuizFold lid b a) q h with hb | ⟨a2, ha2, h1, h2⟩
    · by_cases hl : a.lesson_id = lid
      · match b with
        | none =>
          rw [bestQuizFold_none, if_pos hl] at hb
          exact Or.inr ⟨a, List.mem_cons_self a rest, hl, by simpa using hb.symm⟩
        | some p =>
          rw [bestQuizFold_some, if_pos hl] at hb
          by_cases hlt : p.1 < a.score
          · rw [if_pos hlt] at hb
            exact Or.inr ⟨a, List.mem_cons_self a rest, hl, by simpa using hb.symm⟩
          · rw [if_neg hlt] at hb
            exact Or.inl hb
      · match b with
        | none =>
          rw [bestQuizFold_none, if_neg hl] at hb
          exact absurd hb (by simp)
        | some p =>
          rw [bestQuizFold_some, if_neg hl] at hb
          exact Or.inl hb
    · exact Or.inr ⟨a2, List.mem_cons_of_mem a ha2, h1, h2⟩

/-- The best-attempt fold result dominates the initial accumulator's score
and every scanned matching attempt's score. -/
theorem bestQuizInfo_max (lid : Nat) :
    ∀ (atts : List QuizAttempt) (b : Option (ℚ × Bool)) (q : ℚ × Bool),
      atts.foldl (bestQuizFold lid) b = some q →
      (∀ p : ℚ × Bool, b = some p → p.1 ≤ q.1) ∧
      (∀ a ∈ atts, a.lesson_id = lid → a.score ≤ q.1) := by
  intro atts
  induction atts with
  | nil =>
    intro b q h
    refine ⟨?_, by simp⟩
    intro p hb
    rw [hb] at h
    obtain rfl : p = q := by simpa using h
    exact le_refl _
  | cons a rest ih =>
    intro b q h
    simp only [List.foldl_cons] at h
    obtain ⟨hacc, hmem⟩ := ih (bestQuizFold lid b a) q h
    have hstep : ∀ p : ℚ × Bool, b = some p → p.1 ≤ q.1 := by
      intro p hb
      rw [hb, bestQuizFold_some] at hacc
      by_cases hl : a.lesson_id = lid
      · rw [if_pos hl] at hacc
        by_cases hlt : p.1 < a.score
        · rw [if_pos hlt] at hacc
          exact le_trans (le_of_lt hlt) (hacc (a.score, a.passed) rfl)
        · rw [if_neg hlt] at hacc
          exact hacc p rfl
      · rw [if_neg hl] at hacc
        exact hacc p rfl
    refine ⟨hstep, ?_⟩
    intro a2 ha2 hl2
    rcases List.mem_cons.mp ha2 with rfl | hmem2
    · match hb : b with
      | none =>
        rw [bestQuizFold_none, if_pos hl2] at hacc
        exact hacc (a2.score, a2.passed) rfl
      | some p =>
        rw [bestQuizFold_some, if_pos hl2] at hacc
        by_cases hlt : p.1 < a2.score
        · rw [if_pos hlt] at hacc
          exact hacc (a2.score, a2.passed) rfl
        · rw [if_neg hlt] at hacc
          exact le_trans (not_lt.mp hlt) (hacc p rfl)
    · exact hmem a2 hmem2 hl2

/-- Once the best-attempt fold holds a value it never returns to `none`. -/
theorem bestQuizInfo_some_of_acc (lid : Nat) :
    ∀ (atts : List QuizAttempt) (p : ℚ × Bool),
      ∃ q, atts.foldl (bestQuizFold lid) (some p) = some q := by
  intro atts
  induction atts with
  | nil => intro p; exact ⟨p, rfl⟩
  | cons a rest ih =>
    intro p
    simp only [List.foldl_cons]
    rw [bestQuizFold_some]
    by_cases hl : a.lesson_id = lid
    · rw [if_pos hl]
      by_cases hlt : p.1 < a.score
      · rw [if_pos hlt]; exact ih (a.score, a.passed)
      · rw [if_neg hlt]; exact ih p
    · rw [if_neg hl]; exact ih p

/-- A matching attempt forces the best-attempt map to hold a value. -/
theorem bestQuizInfo_some_of_mem (lid : Nat) :
    ∀ (atts : List QuizAttempt) (a : QuizAttempt), a ∈ atts → a.lesson_id = lid →
      ∃ q, bestQuizInfo atts lid = some q := by
  intro atts
  induction atts with
  | nil => intro a ha; exact absurd ha (by simp)
  | cons x rest ih =>
    intro a ha hl
    unfold bestQuizInfo
    simp only [List.foldl_cons]
    rw [bestQuizFold_none]
    by_cases hx : x.lesson_id = lid
    · rw [if_pos hx]
      exact bestQuizInfo_some_of_acc lid rest (x.score, x.passed)
    · rw [if_neg hx]
      rcases List.mem_cons.mp ha with rfl | hmem
      · exact absurd hl hx
      · exact ih a hmem hl

/-- When every matching attempt's `passed` flag equals its score measured
against the fixed threshold `t`, the best attempt passed exactly when some
attempt passed. -/
theorem bestPassed_iff_anyPassed (atts : List QuizAttempt) (lid : Nat) (t : Int)
    (hcons : ∀ a ∈ atts, a.lesson_id = lid → a.passed = decide ((t : ℚ) ≤ a.score)) :
    ((bestQuizInfo atts lid).map (fun q => q.2)).getD false
      = atts.any (fun a => a.lesson_id == lid && a.passed) := by
  cases hb : bestQuizInfo atts lid with
  | none =>
    have hnone : ∀ a ∈ atts, ¬(a.lesson_id == lid && a.passed) = true := by
      intro a ha hcon
      simp only [Bool.and_eq_true, beq_iff_eq] at hcon
      obtain ⟨q, hq⟩ := bestQuizInfo_some_of_mem lid atts a ha hcon.1
      rw [hb] at hq
      exact absurd hq (by simp)
    rw [List.any_eq_false.mpr hnone]
    simp
  | some q =>
    rcases bestQuizInfo_mem lid atts none q hb with hnone | ⟨a0, ha0, hl0, hq⟩
    · exact absurd hnone (by simp)
    · have hq2 : q.2 = decide ((t : ℚ) ≤ q.1) := by
        rw [hq]
        exact hcons a0 ha0 hl0
      obtain ⟨_, hmax⟩ := bestQuizInfo_max lid atts none q hb
      by_cases hpass : (t : ℚ) ≤ q.1
      · have hany : atts.any (fun a => a.lesson_id == lid && a.passed) = true := by
          refine List.any_eq_true.mpr ⟨a0, ha0, ?_⟩
          simp only [Bool.and_eq_true, beq_iff_eq]
          refine ⟨hl0, ?_⟩
          rw [hcons a0 ha0 hl0]
          have ha0q : a0.score = q.1 := by rw [hq]
          rw [ha0q]
          simpa using hpass
        rw [hany]
        show q.2 = true
        rw [hq2]
        exact decide_eq_true hpass
      · have hany : atts.any (fun a => a.lesson_id == lid && a.passed) = false := by
          rw [List.any_eq_false]
          intro a ha hcon
          simp only [Bool.and_eq_true, beq_iff_eq] at hcon
          obtain ⟨hl, hp⟩ := hcon
          rw [hcons a ha hl] at hp
          simp only [decide_eq_true_eq] at hp
          exact hpass (le_trans hp (hmax a ha hl))
        rw [hany]
        show q.2 = false
        rw [hq2]
        exact decide_eq_false hpass

/-- Appending a failed attempt can never turn the best attempt into a
passed one. -/
theorem bestQuizInfo_append_failed (atts : List QuizAttempt) (lid : Nat)
    (a : QuizAttempt) (hp : a.passed = false)
    (h : ((bestQuizInfo (atts ++ [a]) lid).map (fun q => q.2)).getD false = true) :
    ((bestQuizInfo atts lid).map (fun q => q.2)).getD false = true := by
  unfold bestQuizInfo at h
  rw [List.foldl_append] at h
  simp only [List.foldl_cons, List.foldl_nil] at h
  cases hB : List.foldl (bestQuizFold lid) none atts with
  | none =>
    rw [hB, bestQuizFold_none] at h
    by_cases hl : a.lesson_id = lid <;> simp [hl, hp] at h
  | some q =>
    rw [hB, bestQuizFold_some] at h
    unfold bestQuizInfo
    rw [hB]
    by_cases hl : a.lesson_id = lid
    · rw [if_pos hl] at h
      by_cases hlt : q.1 < a.score
      · rw [if_pos hlt] at h
        simp [hp] at h
      · rw [if_neg hlt] at h
        exact h
    · rw [if_neg hl] at h
      exact h

/-! ### Lemmas about the progress map and the access scan -/

/-- The dict-building fold keeps its accumulator when no row matches. -/
theorem progressMapGet_no_match (lid : Nat) :
    ∀ (ps : List LessonProgress) (acc : Option LessonProgress),
      (∀ p ∈ ps, p.lesson_id ≠ lid) →
      ps.foldl (fun acc p => if p.lesson_id = lid then some p else acc) acc = acc := by
  intro ps
  induction ps with
  | nil => intro acc _; rfl
  | cons p rest ih =>
    intro acc hno
    simp only [List.foldl_cons]
    rw [if_neg (hno p (List.mem_cons_self p rest))]
    exact ih acc (fun q hq => hno q (List.mem_cons_of_mem p hq))

/-- With at most one row per lesson id (the repository's uniqueness
invariant for `LessonProgress`), the last-wins dict lookup coincides with
the first-match query. -/
theorem progressMapGet_eq_find (ps : List LessonProgress) (lid : Nat)
    (hnd : (ps.map (fun p => p.lesson_id)).Nodup) :
    progressMapGet ps lid = ps.find? (fun p => p.lesson_id == lid) := by
  induction ps with
  | nil => rfl
  | cons p rest ih =>
    simp only [List.map_cons, List.nodup_cons] at hnd
    obtain ⟨hnotin, hnd2⟩ := hnd
    unfold progressMapGet
    simp only [List.foldl_cons]
    by_cases h : p.lesson_id = lid
    · rw [if_pos h]
      have hno : ∀ q ∈ rest, q.lesson_id ≠ lid := by
        intro q hq hcon
        exact hnotin (by rw [h, ← hcon]; exact List.mem_map_of_mem _ hq)
      rw [progressMapGet_no_match lid rest (some p) hno]
      rw [List.find?_cons_of_pos _ (by simpa using h)]
    · rw [if_neg h]
      rw [List.find?_cons_of_neg _ (by simpa using h)]
      exact ih hnd2

/-- A list with no matching completed row has a false `any`. -/
theorem any_completed_false (ps : List LessonProgress) (lid : Nat)
    (hno : ∀ p ∈ ps, p.lesson_id ≠ lid) :
    ps.any (fun p => p.lesson_id == lid && p.is_completed) = false := by
  rw [List.any_eq_false]
  intro p hp hcon
  simp only [Bool.and_eq_true, beq_iff_eq] at hcon
  exact hno p hp hcon.1

/-- With unique lesson ids, `can_access_lesson`'s completed-row existence
query agrees with the progress view's dict lookup. -/
theorem any_completed_eq_mapGet (ps : List LessonProgress) (lid : Nat)
    (hnd : (ps.map (fun p => p.lesson_id)).Nodup) :
    ps.any (fun p => p.lesson_id == lid && p.is_completed)
      = (match progressMapGet ps lid with
         | some p => p.is_completed
         | none => false) := by
  rw [progressMapGet_eq_find ps lid hnd]
  induction ps with
  | nil => rfl
  | cons p rest ih =>
    simp only [List.map_cons, List.nodup_cons] at hnd
    obtain ⟨hnotin, hnd2⟩ := hnd
    by_cases h : p.lesson_id = lid
    · rw [List.find?_cons_of_pos _ (by simpa using h)]
      have hno : ∀ q ∈ rest, q.lesson_id ≠ lid := by
        intro q hq hcon
        exact hnotin (by rw [h, ← hcon]; exact List.mem_map_of_mem _ hq)
      simp only [List.any_cons, any_completed_false rest lid hno, Bool.or_false]
      simp [h]
    · rw [List.find?_cons_of_neg _ (by simpa using h)]
      simp only [List.any_cons]
      rw [← ih hnd2]
      simp [h]

/-- Shifting the running index of the target-search loop shifts the
reported index. -/
theorem findTargetAux_shift (tid : Nat) :
    ∀ (ls : List Lesson) (i : Nat),
      findTargetAux ls tid (i + 1)
        = (findTargetAux ls tid i).map (fun p => (p.1, p.2 + 1)) := by
  intro ls
  induction ls with
  | nil => intro i; rfl
  | cons l rest ih =>
    intro i
    unfold findTargetAux
    by_cases hl : l.id = tid
    · rw [if_pos hl, if_pos hl]; rfl
    · rw [if_neg hl, if_neg hl]
      exact ih (i + 1)

/-- The target-search loop reports the first index whose lesson id matches. -/
theorem findTargetAux_spec (tid : Nat) :
    ∀ (ls : List Lesson) (tl : Lesson) (k : Nat),
      findTargetAux ls tid 0 = some (tl, k) →
      ls.get? k = some tl ∧ tl.id = tid ∧
        ∀ j, j < k → ∀ l2, ls.get? j = some l2 → l2.id ≠ tid := by
  intro ls
  induction ls with
  | nil => intro tl k h; exact absurd h (by simp [findTargetAux])
  | cons l rest ih =>
    intro tl k h
    unfold findTargetAux at h
    by_cases hl : l.id = tid
    · rw [if_pos hl] at h
      obtain ⟨rfl, rfl⟩ : l = tl ∧ 0 = k := by simpa using h
      exact ⟨rfl, hl, fun j hj => absurd hj (by omega)⟩
    · rw [if_neg hl] at h
      rw [findTargetAux_shift] at h
      match hrest : findTargetAux rest tid 0 with
      | none => rw [hrest] at h; exact absurd h (by simp)
      | some (tl2, k2) =>
        rw [hrest] at h
        have hk : tl2 = tl ∧ k2 + 1 = k := by simpa using h
        obtain ⟨hget, hid, hprev⟩ := ih tl2 k2 hrest
        obtain ⟨rfl, rfl⟩ := hk
        refine ⟨by simpa using hget, hid, ?_⟩
        intro j hj l2 hl2
        match j with
        | 0 =>
          obtain rfl : l = l2 := by simpa using hl2
          exact hl
        | j + 1 =>
          exact hprev j (by omega) l2 (by simpa using hl2)

/-- Step equation of the prerequisite scan through `prereqOk` and
`blockingDenial`. -/
theorem checkPrereqs_cons (ps : List LessonProgress) (atts : List QuizAttempt)
    (l : Lesson) (rest : List Lesson) :
    checkPrereqs ps atts (l :: rest) =
      if prereqOk ps atts l = true then checkPrereqs ps atts rest
      else some (blockingDenial l) := by
  by_cases hct : l.content_type = "quiz"
  · by_cases h : atts.any (fun a => a.lesson_id == l.id && a.passed) <;>
      simp [checkPrereqs, prereqOk, blockingDenial, hct, h]
  · by_cases h : ps.any (fun p => p.lesson_id == l.id && p.is_completed) <;>
      simp [checkPrereqs, prereqOk, blockingDenial, hct, h]

/-- The prerequisite scan returns `none` exactly when every scanned lesson
passes its test. -/
theorem checkPrereqs_none_iff (ps : List LessonProgress) (atts : List QuizAttempt) :
    ∀ pre : List Lesson,
      checkPrereqs ps atts pre = none ↔ ∀ l ∈ pre, prereqOk ps atts l = true := by
  intro pre
  induction pre with
  | nil => simp [checkPrereqs]
  | cons l rest ih =>
    rw [checkPrereqs_cons]
    by_cases h : prereqOk ps atts l = true
    · rw [if_pos h]
      simp [h, ih]
    · rw [if_neg h]
      simp [h]

/-- A denial from the prerequisite scan is the `blockingDenial` of the
first scanned lesson failing its test. -/
theorem checkPrereqs_some_spec (ps : List LessonProgress) (atts : List QuizAttempt) :
    ∀ (pre : List Lesson) (r : AccessResult),
      checkPrereqs ps atts pre = some r →
      ∃ j l, pre.get? j = some l ∧ prereqOk ps atts l = false ∧
        (∀ i l2, i < j → pre.get? i = some l2 → prereqOk ps atts l2 = true) ∧
        r = blockingDenial l := by
  intro pre
  induction pre with
  | nil => intro r h; exact absurd h (by simp [checkPrereqs])
  | cons l rest ih =>
    intro r h
    rw [checkPrereqs_cons] at h
    by_cases hok : prereqOk ps atts l = true
    · rw [if_pos hok] at h
      obtain ⟨j, l2, hget, hfail, hprev, hr⟩ := ih r h
      refine ⟨j + 1, l2, by simpa using hget, hfail, ?_, hr⟩
      intro i l3 hi hget3
      match i with
      | 0 =>
        obtain rfl : l = l3 := by simpa using hget3
        exact hok
      | i + 1 =>
        exact hprev i l3 (by omega) (by simpa using hget3)
    · rw [if_neg hok] at h
      refine ⟨0, l, rfl, by simpa using hok, ?_, by simpa using h.symm⟩
      intro i l2 hi
      exact absurd hi (by omega)

/-- Unfolding of `can_access_lesson` in the enrolled, target-found,
non-first-lesson case. -/
theorem can_access_lesson_scan (s : EngineState) (tid : Nat) (e : Enrollment)
    (tl : Lesson) (k : Nat) (he : s.enrollment = some e)
    (hfind : findTargetAux s.lessons tid 0 = some (tl, k)) (hk : k ≠ 0) :
    can_access_lesson s tid =
      (match checkPrereqs s.progress s.attempts (s.lessons.take k) with
       | some r => r
       | none =>
         { can_access := true, reason := "All prerequisites completed"
           blocking_lesson_id := none, blocking_lesson_title := none }) := by
  unfold can_access_lesson
  rw [he, hfind]
  dsimp only
  rw [if_neg hk]

/-- Unfolding of `can_access_lesson` when the target is the first lesson. -/
theorem can_access_lesson_first (s : EngineState) (tid : Nat) (e : Enrollment)
    (tl : Lesson) (he : s.enrollment = some e)
    (hfind : findTargetAux s.lessons tid 0 = some (tl, 0)) :
    can_access_lesson s tid =
      { can_access := true, reason := "First lesson"
        blocking_lesson_id := none, blocking_lesson_title := none } := by
  unfold can_access_lesson
  rw [he, hfind]
  dsimp only
  rw [if_pos rfl]

/-- Under unique progress rows and threshold-consistent attempt flags, the
access scan's prerequisite test coincides with the view's effective
completion. -/
theorem prereqOk_eq_effectivelyComplete (ps : List LessonProgress)
    (atts : List QuizAttempt) (l : Lesson)
    (hnd : (ps.map (fun p => p.lesson_id)).Nodup)
    (hcons : ∀ a ∈ atts, a.lesson_id = l.id →
      a.passed = decide ((l.quiz_passing_score : ℚ) ≤ a.score)) :
    prereqOk ps atts l = effectivelyComplete ps atts l := by
  unfold prereqOk effectivelyComplete
  by_cases hct : l.content_type = "quiz"
  · rw [if_pos hct, if_pos hct]
    exact (bestPassed_iff_anyPassed atts l.id l.quiz_passing_score hcons).symm
  · rw [if_neg hct, if_neg hct]
    exact any_completed_eq_mapGet ps l.id hnd

/-! ### C8: the denial reports the first unmet prerequisite -/

/-- C8: when `can_access_lesson` denies access to the target at index
`k > 0` (user enrolled, lesson found), the reported blocking lesson is the
first lesson among indices `[0, k)` — in lesson order — failing the scan's
completion test (`prereqOk`: a passed attempt for quiz lessons, a completed
progress row otherwise), never a later one; the denial carries that
lesson's title and, for quiz lessons, its passing score in the reason. -/
theorem c8_denial_reports_first_unmet (s : EngineState) (tid : Nat) (e : Enrollment)
    (tl : Lesson) (k : Nat)
    (he : s.enrollment = some e)
    (hfind : findTargetAux s.lessons tid 0 = some (tl, k)) (hk : k ≠ 0)
    (hdeny : (can_access_lesson s tid).can_access = false) :
    ∃ j l, j < k ∧ s.lessons.get? j = some l ∧
      prereqOk s.progress s.attempts l = false ∧
      (∀ i l2, i < j → s.lessons.get? i = some l2 →
        prereqOk s.progress s.attempts l2 = true) ∧
      (can_access_lesson s tid).blocking_lesson_id = some l.id ∧
      (can_access_lesson s tid).blocking_lesson_title = some l.title ∧
      (can_access_lesson s tid).reason =
        (if l.content_type = "quiz" then
          "You must pass the quiz " ++ sq ++ l.title ++ sq ++ " with at least " ++
            toString l.quiz_passing_score ++ "% before proceeding"
         else "You must complete " ++ sq ++ l.title ++ sq ++ " before proceeding") := by
  rw [can_access_lesson_scan s tid e tl k he hfind hk] at hdeny ⊢
  match hc : checkPrereqs s.progress s.attempts (s.lessons.take k) with
  | none =>
    rw [hc] at hdeny
    exact absurd hdeny (by simp)
  | some r =>
    dsimp only at hdeny ⊢
    obtain ⟨j, l, hget, hfail, hprev, hr⟩ :=
      checkPrereqs_some_spec s.progress s.attempts (s.lessons.take k) r hc
    have hjk : j < k := by
      obtain ⟨hlt, _⟩ := List.get?_eq_some.mp hget
      rw [List.length_take] at hlt
      omega
    refine ⟨j, l, hjk, ?_, hfail, ?_, ?_, ?_, ?_⟩
    · rw [← List.get?_take hjk]
      exact hget
    · intro i l2 hi hget2
      exact hprev i l2 hi (by rw [List.get?_take (by omega : i < k)]; exact hget2)
    · rw [hr]; rfl
    · rw [hr]; rfl
    · rw [hr]; rfl

/-- A three-lesson course with nothing completed; the access check for
lesson 3 must block on lesson 1, the first unmet prerequisite. -/
theorem c8_denial_reports_first_unmet_witness :
    ∃ j l, j < 2 ∧ c10State.lessons.get? j = some l ∧
      prereqOk c10State.progress c10State.attempts l = false ∧
      (∀ i l2, i < j → c10State.lessons.get? i = some l2 →
        prereqOk c10State.progress c10State.attempts l2 = true) ∧
      (can_access_lesson c10State 3).blocking_lesson_id = some l.id ∧
      (can_access_lesson c10State 3).blocking_lesson_title = some l.title ∧
      (can_access_lesson c10State 3).reason =
        (if l.content_type = "quiz" then
          "You must pass the quiz " ++ sq ++ l.title ++ sq ++ " with at least " ++
            toString l.quiz_passing_score ++ "% before proceeding"
         else "You must complete " ++ sq ++ l.title ++ sq ++ " before proceeding") :=
  c8_denial_reports_first_unmet c10State 3 freshEnrollment (videoLesson 3) 2 rfl
    (by decide) (by decide) (by decide)

/-! ### C1: access decision versus the view's unlock flag -/

/-- Counterexample to C1: with three video lessons and only lesson 2
completed, the progress view marks lesson 3 unlocked (its immediate
predecessor is complete) while `can_access_lesson` denies lesson 3 (it
scans all predecessors and lesson 1 is incomplete) — the two disagree. -/
theorem c1_counterexample :
    (viewRows c1CexState.progress c1CexState.attempts c1CexState.lessons true 0).map
        (fun row => row.is_unlocked) = [true, false, true] ∧
    (can_access_lesson c1CexState 3).can_access = false := by
  decide

/-- C1 as amended: for an enrolled user and a target lesson found at index
`k`, and for states whose quiz-attempt `passed` flags agree with the
lessons' current passing scores, `can_access_lesson` grants access exactly
when every lesson before index `k` is effectively complete.  Hence a grant
implies the view's `is_unlocked` flag at index `k`; the full equivalence
with the unlock flag holds exactly on states where effective completion is
downward closed along the lesson order (the view's flag checks only the
immediately preceding lesson, the access check scans all predecessors). -/
theorem c1_amended_access_vs_unlock (s : EngineState) (tid : Nat) (e : Enrollment)
    (tl : Lesson) (k : Nat)
    (he : s.enrollment = some e)
    (hfind : findTargetAux s.lessons tid 0 = some (tl, k))
    (hrows : (s.progress.map (fun p => p.lesson_id)).Nodup)
    (hcons : ∀ a ∈ s.attempts, ∀ l ∈ s.lessons, a.lesson_id = l.id →
      a.passed = decide ((l.quiz_passing_score : ℚ) ≤ a.score)) :
    ((can_access_lesson s tid).can_access = true ↔
      (∀ j l, j < k → s.lessons.get? j = some l →
        effectivelyComplete s.progress s.attempts l = true)) ∧
    ((can_access_lesson s tid).can_access = true →
      ∀ row, (viewRows s.progress s.attempts s.lessons true 0).get? k = some row →
        row.is_unlocked = true) ∧
    ((∀ i j li lj, i ≤ j → s.lessons.get? i = some li → s.lessons.get? j = some lj →
        effectivelyComplete s.progress s.attempts lj = true →
        effectivelyComplete s.progress s.attempts li = true) →
      ((can_access_lesson s tid).can_access = true ↔
        ∀ row, (viewRows s.progress s.attempts s.lessons true 0).get? k = some row →
          row.is_unlocked = true)) := by
  have hperlesson : ∀ l ∈ s.lessons,
      prereqOk s.progress s.attempts l = effectivelyComplete s.progress s.attempts l := by
    intro l hl
    exact prereqOk_eq_effectivelyComplete s.progress s.attempts l hrows
      (fun a ha hal => hcons a ha l hl hal)
  have hA : (can_access_lesson s tid).can_access = true ↔
      (∀ j l, j < k → s.lessons.get? j = some l →
        effectivelyComplete s.progress s.attempts l = true) := by
    by_cases hk : k = 0
    · subst hk
      rw [can_access_lesson_first s tid e tl he hfind]
      constructor
      · intro _ j l hj
        exact absurd hj (by omega)
      · intro _
        rfl
    · rw [can_access_lesson_scan s tid e tl k he hfind hk]
      match hc : checkPrereqs s.progress s.attempts (s.lessons.take k) with
      | none =>
        constructor
        · intro _ j l hj hget
          have hmem : l ∈ s.lessons := List.get?_mem hget
          rw [← hperlesson l hmem]
          exact (checkPrereqs_none_iff s.progress s.attempts (s.lessons.take k)).mp hc l
            (List.get?_mem (by rw [List.get?_take hj]; exact hget))
        · intro _
          rfl
      | some r =>
        dsimp only
        obtain ⟨j0, l0, hget0, hfail0, _, hr⟩ :=
          checkPrereqs_some_spec s.progress s.attempts (s.lessons.take k) r hc
        have hj0k : j0 < k := by
          obtain ⟨hlt, _⟩ := List.get?_eq_some.mp hget0
          rw [List.length_take] at hlt
          omega
        have hget0f : s.lessons.get? j0 = some l0 := by
          rw [← List.get?_take hj0k]
          exact hget0
        constructor
        · intro habs
          rw [hr] at habs
          exact absurd habs (by simp [blockingDenial])
        · intro hall
          have heff := hall j0 l0 hj0k hget0f
          rw [← hperlesson l0 (List.get?_mem hget0f)] at heff
          rw [hfail0] at heff
          exact absurd heff (by simp)
  have hB : (can_access_lesson s tid).can_access = true →
      ∀ row, (viewRows s.progress s.attempts s.lessons true 0).get? k = some row →
        row.is_unlocked = true := by
    intro hgrant row hrow
    match k, hrow with
    | 0, hrow =>
      have := viewRows_get?_is_unlocked_zero s.progress s.attempts s.lessons true 0 row hrow
      simpa using this
    | k' + 1, hrow =>
      obtain ⟨lesson, hgetl, hu⟩ :=
        viewRows_get?_is_unlocked_succ s.progress s.attempts s.lessons true 0 k' row hrow
      rw [hu]
      exact hA.mp hgrant k' lesson (by omega) hgetl
  refine ⟨hA, hB, ?_⟩
  intro hdc
  constructor
  · exact hB
  · intro hunlock
    refine hA.mpr ?_
    intro j l hj hget
    match hk : k, hj with
    | k' + 1, hj =>
      have hklen : k' + 1 < s.lessons.length := by
        obtain ⟨hget2, _, _⟩ := findTargetAux_spec tid s.lessons tl (k' + 1) hfind
        obtain ⟨hlt, _⟩ := List.get?_eq_some.mp hget2
        exact hlt
      have hvlen : k' + 1 < (viewRows s.progress s.attempts s.lessons true 0).length := by
        rw [viewRows_length]
        exact hklen
      have hrow : (viewRows s.progress s.attempts s.lessons true 0).get? (k' + 1)
          = some ((viewRows s.progress s.attempts s.lessons true 0).get ⟨k' + 1, hvlen⟩) :=
        List.get?_eq_get hvlen
      have hunl := hunlock _ hrow
      obtain ⟨lesson, hgetl, hu⟩ :=
        viewRows_get?_is_unlocked_succ s.progress s.attempts s.lessons true 0 k'
          ((viewRows s.progress s.attempts s.lessons true 0).get ⟨k' + 1, hvlen⟩) hrow
      rw [hu] at hunl
      exact hdc j k' l lesson (by omega) hget hgetl hunl

/-- Witness for the amended C1 at a two-video-lesson course with the first
lesson completed, target lesson 2 at index 1. -/
theorem c1_amended_access_vs_unlock_witness :
    (can_access_lesson c5WitnessState 2).can_access = true ↔
      (∀ j l, j < 1 → c5WitnessState.lessons.get? j = some l →
        effectivelyComplete c5WitnessState.progress c5WitnessState.attempts l = true) :=
  (c1_amended_access_vs_unlock c5WitnessState 2 freshEnrollment (videoLesson 2) 1 rfl
    (by decide) (by decide) (by intro a ha; simp [c5WitnessState] at ha)).1

/-! ### C4: quiz completion in the progress view -/

/-- Counterexample to C4: with two tied attempts at the quiz lesson —
the earlier failed, the later passed — the progress view reports the
lesson incomplete (the best-attempt fold keeps the first attempt on a tie)
although a passed `QuizAttempt` exists. -/
theorem c4_counterexample :
    (viewRows c4CexState.progress c4CexState.attempts c4CexState.lessons true 0).map
        (fun row => row.is_completed) = [false] ∧
    c4CexState.attempts.any (fun a => a.lesson_id == 1 && a.passed) = true := by
  decide

/-- C4 as amended: a quiz lesson is complete in the progress view iff its
best attempt passed; when every attempt's `passed` flag agrees with the
lesson's current passing score this coincides with the existence of a
passed attempt.  A failed quiz submission persists its attempt but never
makes a quiz lesson complete in the view, and `mark_lesson_complete` on a
quiz lesson id never changes the lesson's completed state in the view. -/
theorem c4_amended_quiz_completion (s : EngineState) :
    (∀ (j : Nat) (lesson : Lesson) (row : LessonStatus),
      s.lessons.get? j = some lesson → lesson.content_type = "quiz" →
      (∀ a ∈ s.attempts, a.lesson_id = lesson.id →
        a.passed = decide ((lesson.quiz_passing_score : ℚ) ≤ a.score)) →
      (viewRows s.progress s.attempts s.lessons true 0).get? j = some row →
      (row.is_completed = true ↔
        ∃ a ∈ s.attempts, a.lesson_id = lesson.id ∧ a.passed = true)) ∧
    (∀ (tid : Nat) (answers : Nat → Option Int) (now : Nat) (s' : EngineState)
      (r : QuizResult),
      submit_quiz s tid answers now = Except.ok (s', r) → r.passed = false →
      ∀ (j : Nat) (lesson : Lesson) (row2 row : LessonStatus),
        s.lessons.get? j = some lesson → lesson.content_type = "quiz" →
        (viewRows s'.progress s'.attempts s'.lessons true 0).get? j = some row2 →
        (viewRows s.progress s.attempts s.lessons true 0).get? j = some row →
        row2.is_completed = true → row.is_completed = true) ∧
    (∀ (tid now : Nat) (s' : EngineState) (pct : ℚ),
      mark_lesson_complete s tid now = Except.ok (s', pct) →
      ∀ (j : Nat) (lesson : Lesson) (row2 row : LessonStatus),
        s.lessons.get? j = some lesson → lesson.content_type = "quiz" →
        (viewRows s'.progress s'.attempts s'.lessons true 0).get? j = some row2 →
        (viewRows s.progress s.attempts s.lessons true 0).get? j = some row →
        row2.is_completed = row.is_completed) := by
  have hview : ∀ (ps : List LessonProgress) (atts : List QuizAttempt)
      (j : Nat) (lesson : Lesson) (row : LessonStatus),
      s.lessons.get? j = some lesson →
      (viewRows ps atts s.lessons true 0).get? j = some row →
      row.is_completed = effectivelyComplete ps atts lesson := by
    intro ps atts j lesson row hget hrow
    have := viewRows_get?_is_completed ps atts s.lessons true 0 j
    rw [hrow, hget] at this
    simpa using this
  refine ⟨?_, ?_, ?_⟩
  · intro j lesson row hget hct hcons hrow
    rw [hview s.progress s.attempts j lesson row hget hrow]
    unfold effectivelyComplete
    rw [if_pos hct]
    rw [bestPassed_iff_anyPassed s.attempts lesson.id lesson.quiz_passing_score hcons]
    rw [List.any_eq_true]
    constructor
    · intro ⟨a, ha, hcon⟩
      simp only [Bool.and_eq_true, beq_iff_eq] at hcon
      exact ⟨a, ha, hcon.1, hcon.2⟩
    · intro ⟨a, ha, h1, h2⟩
      exact ⟨a, ha, by simp [h1, h2]⟩
  · intro tid answers now s' r hok hpfalse j lesson row2 row hget hct hrow2 hrow hcomp2
    obtain ⟨e, lesson2, _, _, _, _, _, _, _, _, hlessons, hatts, hbranch⟩ :=
      submit_quiz_ok_spec s tid answers now s' r hok
    rcases hbranch with ⟨htrue, _, _⟩ | ⟨_, hprog, _⟩
    · rw [hpfalse] at htrue
      exact absurd htrue (by simp)
    · rw [hlessons] at hrow2
      rw [hview s'.progress s'.attempts j lesson row2 hget hrow2] at hcomp2
      rw [hview s.progress s.attempts j lesson row hget hrow]
      unfold effectivelyComplete at hcomp2 ⊢
      rw [if_pos hct] at hcomp2 ⊢
      rw [hatts] at hcomp2
      exact bestQuizInfo_append_failed s.attempts lesson.id _ (by simp [hpfalse]) hcomp2
  · intro tid now s' pct hok j lesson row2 row hget hct hrow2 hrow
    obtain ⟨e, _, hlessons, hatts, _, _, _⟩ :=
      mark_lesson_complete_ok_spec s tid now s' pct hok
    rw [hlessons] at hrow2
    rw [hview s'.progress s'.attempts j lesson row2 hget hrow2,
      hview s.progress s.attempts j lesson row hget hrow]
    unfold effectivelyComplete
    rw [if_pos hct, if_pos hct, hatts]

/-- Witness for the amended C4: in the state after passing quiz lesson 1,
the view's quiz row at index 1 is complete, matching the existence of the
passed attempt. -/
theorem c4_amended_quiz_completion_witness :
    c4WitnessRow.is_completed = true ↔
      ∃ a ∈ c7AfterState.attempts, a.lesson_id = (quizLesson 1).id ∧ a.passed = true :=
  (c4_amended_quiz_completion c7AfterState).1 1 (quizLesson 1) c4WitnessRow rfl rfl
    (by decide) (by decide)

end LMS
